import Mathlib

/-!
Shallow embedding of the citrace-player replay tool (`src/main.cpp`) and
verification of its specification claims.

Machine integers are modelled as `Nat` with an explicit `% 2^32` (`u32`)
wherever a C `uint32_t` computation can overflow.  The trace file is
modelled in two complementary ways:

* a word oracle `w : Nat → Nat` giving the 32-bit little-endian word that a
  4-byte read starting at a given byte offset would produce (used for all
  value-level claims about the command-list builder and the packing
  transform; reads are assumed in bounds, matching the spec's validity
  invariant on header offset/size pairs), and
* a size-only stream model (`IStream`) that tracks the read position and
  the sticky fail bit of the `std::ifstream`, used for the claims about
  end-of-file handling, where only *whether* reads succeed matters.
-/

namespace CiTracePlayer

/-- Reduction modulo 2^32: the value stored in a C `uint32_t`. -/
def u32 (n : Nat) : Nat := n % 4294967296

/-! ## Memory-map constants (from the `enum`s in `main.cpp`) -/

def IO_AREA_PADDR : Nat := 0x10100000
def IO_AREA_SIZE : Nat := 0x01000000
def IO_AREA_PADDR_END : Nat := IO_AREA_PADDR + IO_AREA_SIZE

def VRAM_PADDR : Nat := 0x18000000
def VRAM_SIZE : Nat := 0x00600000
def VRAM_PADDR_END : Nat := VRAM_PADDR + VRAM_SIZE

def DSP_RAM_PADDR : Nat := 0x1FF00000
def DSP_RAM_SIZE : Nat := 0x00080000
def DSP_RAM_PADDR_END : Nat := DSP_RAM_PADDR + DSP_RAM_SIZE

def FCRAM_PADDR : Nat := 0x20000000
def FCRAM_SIZE : Nat := 0x08000000
def FCRAM_PADDR_END : Nat := FCRAM_PADDR + FCRAM_SIZE

def IO_AREA_VADDR : Nat := 0x1EC00000
def VRAM_VADDR : Nat := 0x1F000000
def DSP_RAM_VADDR : Nat := 0x1FF00000

/-- `FCRAMStartVAddr()` from `main.cpp` (hardcoded platform value). -/
def FCRAMStartVAddr : Nat := 0x14000000

/-- `PhysicalToVirtualAddress` from `main.cpp`.  `some v` is a returned
virtual address; `none` models the `NetworkExit(); std::terminate()` path
taken for a non-zero address lying in none of the four declared regions. -/
def PhysicalToVirtualAddress (physical_address : Nat) : Option Nat :=
  if physical_address = 0 then
    some 0
  else if VRAM_PADDR ≤ physical_address ∧ physical_address < VRAM_PADDR_END then
    some (physical_address - VRAM_PADDR + VRAM_VADDR)
  else if FCRAM_PADDR ≤ physical_address ∧ physical_address < FCRAM_PADDR_END then
    some (physical_address - FCRAM_PADDR + FCRAMStartVAddr)
  else if DSP_RAM_PADDR ≤ physical_address ∧ physical_address < DSP_RAM_PADDR_END then
    some (physical_address - DSP_RAM_PADDR + DSP_RAM_VADDR)
  else if IO_AREA_PADDR ≤ physical_address ∧ physical_address < IO_AREA_PADDR_END then
    some (physical_address - IO_AREA_PADDR + IO_AREA_VADDR)
  else
    none

/-! ## The 4-to-3 float24 packing transform

`main.cpp` emits, for four `uint32_t` source values `v0..v3`, three packed
words (lines 321/326/327 and identically 347-349).  The only sub-expression
that can overflow 32 bits is `values[3] << 8`, hence the single `u32`. -/

/-- The three packed words the code pushes for one group of 4 source words. -/
def pack (v0 v1 v2 v3 : Nat) : Nat × Nat × Nat :=
  (u32 (v3 <<< 8) ||| ((v2 >>> 16) &&& 0xFF),
   ((v2 &&& 0xFFFF) <<< 16) ||| ((v1 >>> 8) &&& 0xFFFF),
   ((v1 &&& 0xFF) <<< 24) ||| (v0 &&& 0xFFFFFF))

/-- Modelled from the spec: the repository contains no unpacker; this is the
"corresponding unpacking transform" of the round-trip property, extracting
from the packed words `(w0, w1, w2)` the 24 bits that `pack` stored for each
of the four lanes. -/
def unpackSpec (w0 w1 w2 : Nat) : Nat × Nat × Nat × Nat :=
  (w2 &&& 0xFFFFFF,
   (w2 >>> 24) ||| ((w1 &&& 0xFFFF) <<< 8),
   (w1 >>> 16) ||| ((w0 &&& 0xFF) <<< 16),
   w0 >>> 8)

/-! ## Trace header side-table and initial-state command-list builder

The header type `CiTrace::CTHeader` comes from `citrace.h`, which is not
among the given sources; the fields below are exactly those `main.cpp`
dereferences under `header.initial_state_offsets`. -/

/-- Modelled from the spec: the repository's `citrace.h` (the header layout)
is not under `src/`; the spec describes the header as offset+size pairs for
the stream, default vertex attributes, shader binaries, swizzle tables,
float uniform tables and the two register snapshots.  Field names are the
ones `main.cpp` uses. -/
structure CTInitialStateOffsets where
  default_attributes : Nat
  default_attributes_size : Nat
  gs_program_binary : Nat
  gs_program_binary_size : Nat
  gs_swizzle_data : Nat
  gs_swizzle_data_size : Nat
  gs_float_uniforms : Nat
  gs_float_uniforms_size : Nat
  vs_program_binary : Nat
  vs_program_binary_size : Nat
  vs_swizzle_data : Nat
  vs_swizzle_data_size : Nat
  vs_float_uniforms : Nat
  vs_float_uniforms_size : Nat
  pica_registers : Nat
  pica_registers_size : Nat
  gpu_registers : Nat
  gpu_registers_size : Nat
deriving Repr

/-- A 4-byte `input.read` at byte position `pos`, against the word oracle
`w` (the stored value is a `uint32_t`). -/
def readWord (w : Nat → Nat) (pos : Nat) : Nat := u32 (w pos)

/-- The `for (index = 1; index < num_words; ++index)` tail of the non-float
branch of `SubmitInternalMemory`: `k` remaining iterations, reading one word
per iteration at consecutive positions. -/
def rawTail (w : Nat → Nat) : Nat → Nat → List Nat
  | 0, _ => []
  | k + 1, pos => readWord w pos :: rawTail w k (pos + 4)

/-- The `for (index = 1; index < num_words / 4; ++index)` loop of the
float-uniform branch of `SubmitInternalMemory`: `k` remaining iterations,
each reading 4 words at `pos` and pushing the 3 packed words, with the data
command header `hdrWord` inserted after the first packed word of the first
iteration only (`command_written` tracking). -/
def floatLoop (w : Nat → Nat) (hdrWord : Nat) : Nat → Nat → Bool → List Nat
  | 0, _, _ => []
  | k + 1, pos, command_written =>
    let v0 := readWord w pos
    let v1 := readWord w (pos + 4)
    let v2 := readWord w (pos + 8)
    let v3 := readWord w (pos + 12)
    let p := pack v0 v1 v2 v3
    (if command_written then [p.1, p.2.1, p.2.2] else [p.1, hdrWord, p.2.1, p.2.2])
      ++ floatLoop w hdrWord k (pos + 16) true

/-- The `SubmitInternalMemory` lambda of `main.cpp` (lines 301-339), as the
list of words it appends to `command_list`. -/
def SubmitInternalMemory (w : Nat → Nat) (file_offset num_words pica_register_id : Nat)
    (is_float_uniform : Bool) : List Nat :=
  if num_words = 0 then []
  else
    [0, pica_register_id ||| 0xF0000] ++
    (if is_float_uniform then
      floatLoop w (u32 ((pica_register_id + 1) ||| 0xF0000 ||| ((num_words / 4 * 3 - 1) <<< 20)))
        (num_words / 4 - 1) file_offset false
    else
      readWord w file_offset ::
      u32 ((pica_register_id + 1) ||| 0xF0000 ||| ((num_words - 1) <<< 20)) ::
      rawTail w (num_words - 1) (file_offset + 4))

/-- One iteration of the default-vertex-attribute loop (lines 340-350):
slot index word, fixed command header `0x232 | 0xF0000 | (3 << 20)`, and the
3 packed words.  The code does `input.seekg(default_attributes)` inside the
loop body, so every slot reads the same 4 words at `off .. off+12`. -/
def defaultAttrSlot (w : Nat → Nat) (off i : Nat) : List Nat :=
  let v0 := readWord w off
  let v1 := readWord w (off + 4)
  let v2 := readWord w (off + 8)
  let v3 := readWord w (off + 12)
  let p := pack v0 v1 v2 v3
  [i, 0x232 ||| 0xF0000 ||| (3 <<< 20), p.1, p.2.1, p.2.2]

/-- The whole default-vertex-attribute loop, `count = default_attributes_size / 4`
iterations in ascending order of `i`. -/
def defaultAttrCommands (w : Nat → Nat) (off count : Nat) : List Nat :=
  (List.range count).flatMap (defaultAttrSlot w off)

/-- `pica_register_state_mask` (lines 141-245): the per-register 4-bit mask
of stateful byte lanes, translated from the imperative initialization of
the `std::array<uint8_t, 0x300>`. -/
def pica_register_state_mask (i : Nat) : Nat :=
  if i = 0x40 then 0x1
  else if i = 0x41 ∨ i = 0x43 ∨ i = 0x4d ∨ i = 0x4e then 0x7
  else if 0x50 ≤ i ∧ i < 0x50 + 7 then 0xF
  else if i = 0x68 then 0xF
  else if i = 0x80 then 0x1
  else if i = 0x82 ∨ i = 0x83 ∨ i = 0x85 then 0xF
  else if i = 0x8e then 0x1
  else if i = 0x92 ∨ i = 0x93 ∨ i = 0x95 then 0xF
  else if i = 0x96 then 0x1
  else if i = 0x9a ∨ i = 0x9b ∨ i = 0x9d then 0xF
  else if i = 0x9e then 0x1
  else if (0xc0 ≤ i ∧ i < 0xc0 + 5) ∨ (0xc8 ≤ i ∧ i < 0xc8 + 5) ∨
          (0xd0 ≤ i ∧ i < 0xd0 + 5) ∨ (0xd8 ≤ i ∧ i < 0xd8 + 5) ∨
          (0xf0 ≤ i ∧ i < 0xf0 + 5) ∨ (0xf8 ≤ i ∧ i < 0xf8 + 5) then 0xF
  else if i = 0xe0 ∨ i = 0xfd then 0xF
  else if i = 0x100 ∨ i = 0x101 ∨ i = 0x102 ∨ i = 0x103 ∨ i = 0x104 ∨ i = 0x106 then 0xF
  else if i = 0x116 ∨ i = 0x117 ∨ i = 0x11c ∨ i = 0x11d ∨ i = 0x11e then 0xF
  else if i = 0x200 ∨ i = 0x201 ∨ i = 0x202 then 0xF
  else if 0x203 ≤ i ∧ i < 0x203 + 36 then 0xF
  else if i = 0x227 ∨ i = 0x228 then 0xF
  else if i = 0x25e then 0xF
  else if 0x2b0 ≤ i ∧ i < 0x2b0 + 5 then 0xF
  else if i = 0x2ba ∨ i = 0x2bb ∨ i = 0x2bc then 0xF
  else if i = 0x2c0 then 0xF
  else if i = 0x2cb then 0xF
  else if i = 0x2d5 then 0xF
  else 0

/-- The register-snapshot replay loop (lines 361-371): every register index
is read (4 bytes, sequential from the snapshot offset), and a value/header
pair is emitted only when the mask entry is non-zero. -/
def picaRegCommands (w : Nat → Nat) (off count : Nat) : List Nat :=
  (List.range count).flatMap (fun regid =>
    let value := readWord w (off + 4 * regid)
    if pica_register_state_mask regid = 0 then []
    else [value, regid ||| (pica_register_state_mask regid <<< 16)])

/-- The whole pre-padding initial-state command list, in the source's order:
default attributes, the six `SubmitInternalMemory` calls (lines 351-356),
then the register snapshot. -/
def buildInitialCommands (w : Nat → Nat) (h : CTInitialStateOffsets) : List Nat :=
  defaultAttrCommands w h.default_attributes (h.default_attributes_size / 4)
  ++ SubmitInternalMemory w h.gs_program_binary h.gs_program_binary_size 0x29b false
  ++ SubmitInternalMemory w h.gs_swizzle_data h.gs_swizzle_data_size 0x2a5 false
  ++ SubmitInternalMemory w h.gs_float_uniforms h.gs_float_uniforms_size 0x290 true
  ++ SubmitInternalMemory w h.vs_program_binary h.vs_program_binary_size 0x2cb false
  ++ SubmitInternalMemory w h.vs_swizzle_data h.vs_swizzle_data_size 0x2d5 false
  ++ SubmitInternalMemory w h.vs_float_uniforms h.vs_float_uniforms_size 0x2c0 true
  ++ picaRegCommands w h.pica_registers (min 0x300 h.pica_registers_size)

/-- The padding loop (lines 374-379), fuel-indexed: each iteration of the
`while ((size % 4) != 0)` loop appends copies of the previous two words
(`push_back(list[size-2])` twice, the second push seeing the grown list).
`none` means the fuel ran out with the loop still running — the loop body
never touches the exit condition's parity, so for an odd-length list the
result is `none` at every fuel (the C++ loop never terminates). -/
def padFuel : Nat → List Nat → Option (List Nat)
  | 0, l => if l.length % 4 = 0 then some l else none
  | fuel + 1, l =>
    if l.length % 4 = 0 then some l
    else padFuel fuel (l ++ [l.getD (l.length - 2) 0, l.getD (l.length - 1) 0])

/-! ## Playback engine -/

/-- The VRAM DMA loop (lines 441-454) for a `MemoryLoad` element whose
physical address lies in VRAM.  Every iteration calls
`PhysicalToVirtualAddress(addr)` on the current chunk's destination — in
the diagnostic print at line 445 and again in the `GX_RequestDma` call at
line 449 — so a chunk address lying in no declared region terminates the
process mid-copy, before that chunk's bytes are read or transferred.  The
result pairs the list of chunk transfers actually issued, one per
iteration as `(file position of the read, destination physical address,
chunk size)` with chunk size `min(TransferBufferSize, remaining)` and
`TransferBufferSize = 1024`, with `none` when the loop ran to completion
(exit after the iteration with `remaining <= TransferBufferSize`) or
`some a` when the translator terminated the process at the untranslatable
chunk address `a`.  The file position advances by the number of bytes
read; `addr += TransferBufferSize` is `uint32_t` arithmetic. -/
def dmaTransfers (pos addr remaining : Nat) : List (Nat × Nat × Nat) × Option Nat :=
  match PhysicalToVirtualAddress addr with
  | none => ([], some addr)
  | some _ =>
    let sz := min 1024 remaining
    if remaining ≤ 1024 then ([(pos, addr, sz)], none)
    else
      let rest := dmaTransfers (pos + sz) (u32 (addr + 1024)) (remaining - 1024)
      ((pos, addr, sz) :: rest.1, rest.2)
termination_by remaining
decreasing_by omega

/-- What the `MemoryLoad` case of the playback switch (lines 423-472) does
with one element. -/
inductive LoadAction where
  /-- VRAM branch, every chunk address translated: the listed DMA chunk
  transfers are issued and the loop runs to completion. -/
  | dmaCopy (chunks : List (Nat × Nat × Nat)) : LoadAction
  /-- VRAM branch, a chunk address left every declared region: the listed
  chunks were transferred, then `PhysicalToVirtualAddress` hit the unknown
  chunk address `addr` and the process terminated mid-copy. -/
  | dmaAborted (chunks : List (Nat × Nat × Nat)) (addr : Nat) : LoadAction
  /-- non-VRAM branch, translation returned a real address: direct
  `input.read` into `vaddr` of `size` bytes, then a cache flush of that
  range. -/
  | directCopy (vaddr size : Nat) : LoadAction
  /-- non-VRAM branch, translation returned the null sentinel
  (`dest == nullptr`): a diagnostic is printed and the element is skipped —
  no copy, no cache flush. -/
  | skipNullDest : LoadAction
  /-- `PhysicalToVirtualAddress` hit an unknown address: diagnostic, then
  `std::terminate()` — the whole process ends. -/
  | terminated : LoadAction
deriving Repr, DecidableEq

/-- The `MemoryLoad` case of the playback switch, for an element with
fields `(file_offset, physical_address, size)`. -/
def processMemoryLoad (file_offset physical_address size : Nat) : LoadAction :=
  if VRAM_PADDR ≤ physical_address ∧ physical_address < VRAM_PADDR_END then
    match dmaTransfers file_offset physical_address size with
    | (chunks, none) => .dmaCopy chunks
    | (chunks, some a) => .dmaAborted chunks a
  else
    match PhysicalToVirtualAddress physical_address with
    | none => .terminated
    | some 0 => .skipNullDest
    | some v => .directCopy v size

/-- Bytes copied to hardware-visible memory by a `LoadAction`. -/
def loadBytesCopied : LoadAction → Nat
  | .dmaCopy chunks => (chunks.map (fun c => c.2.2)).sum
  | .dmaAborted chunks _ => (chunks.map (fun c => c.2.2)).sum
  | .directCopy _ size => size
  | .skipNullDest => 0
  | .terminated => 0

/-- Cache ranges flushed by a `LoadAction` (destination flushes; the VRAM
branch flushes only the scratch buffer, not the destination). -/
def loadFlushedRanges : LoadAction → List (Nat × Nat)
  | .directCopy vaddr size => [(vaddr, size)]
  | _ => []

/-- The fixed set of operation-triggering register addresses
(lines 533-536) whose write is followed by completion polling. -/
def isTriggerAddress (a : Nat) : Bool :=
  a = 0x1040001C || a = 0x1040002C || a = 0x10400C18 || a = 0x104018F0

/-- The completion-polling `do { ... } while (count++ < 100)` loop
(lines 539-547).  `vals i` is the value the `i`-th `GSPGPU_ReadHWRegs`
returns; the result is the total number of reads performed.  `fuel` is the
number of loop continuations the `count++ < 100` guard still allows
(`100 - count`); the loop breaks as soon as a read has its low bit set.
With no continuations left the body still performs its read and then exits
either through the `break` or through the guard — the same count — so the
`fuel = 0` equation returns `idx + 1` without testing the value. -/
def pollAux (vals : Nat → Nat) : Nat → Nat → Nat
  | idx, 0 => idx + 1
  | idx, f + 1 => if vals idx &&& 1 ≠ 0 then idx + 1 else pollAux vals (idx + 1) f

/-- Total number of register read-backs the polling loop performs. -/
def pollReads (vals : Nat → Nat) : Nat := pollAux vals 0 100

/-- A decoded stream element (`CiTrace::CTStreamElement`; the variant
payloads are the fields `main.cpp` reads from each case). -/
inductive CTStreamElement where
  | frameMarker : CTStreamElement
  | memoryLoad (file_offset physical_address size : Nat) : CTStreamElement
  | registerWrite (physical_address value size : Nat) : CTStreamElement
  | unknownType (tag : Nat) : CTStreamElement
deriving Repr, DecidableEq

/-- Control-flow outcome of processing one stream element. -/
inductive ElemOutcome where
  /-- the `switch` case ended in `break`: iteration continues with the next
  element. -/
  | next : ElemOutcome
  /-- `goto exit`: the session ends (clean shutdown path). -/
  | exitSession : ElemOutcome
  /-- `std::terminate()` inside `PhysicalToVirtualAddress`: the process
  ends. -/
  | procTerminated : ElemOutcome
deriving Repr, DecidableEq

/-- One step of the playback stream iteration (the `switch` at line 416).
`cmdListAddr` is the value the `0x104018F0` trigger path reads back from
the command-list-address register (line 526); the trigger path translates
`addr * 8` and submits the command list at the translated address. -/
def stepElement (cmdListAddr : Nat) : CTStreamElement → ElemOutcome
  | .frameMarker => .next
  | .memoryLoad file_offset physical_address size =>
    match processMemoryLoad file_offset physical_address size with
    | .terminated => .procTerminated
    | .dmaAborted _ _ => .procTerminated
    | _ => .next
  | .registerWrite physical_address _value _size =>
    if physical_address = 0x104018F0 then
      match PhysicalToVirtualAddress (u32 (cmdListAddr * 8)) with
      | none => .procTerminated
      | some _ => .next
    else .next
  | .unknownType _ => .exitSession

/-! ## End-of-file behaviour of the setup phase

`std::ifstream` semantics: a `read` past the end of the data sets the
sticky `failbit`; every later `read`/`seekg` on the failed stream is a
no-op.  Only the position and fail bit matter for the truncation claims,
so this model carries no data. -/

/-- Position-and-failbit model of the open `std::ifstream`. -/
structure IStream where
  size : Nat
  pos : Nat
  fail : Bool
deriving Repr, DecidableEq

/-- `input.read(buf, n)`: advances by `n` when the bytes exist, otherwise
consumes what is left and sets the fail bit.  A failed stream ignores the
call. -/
def isRead (s : IStream) (n : Nat) : IStream :=
  if s.fail then s
  else if s.pos + n ≤ s.size then { s with pos := s.pos + n }
  else { s with pos := s.size, fail := true }

/-- `input.seekg(p)`: repositions, unless the stream already failed. -/
def isSeek (s : IStream) (p : Nat) : IStream :=
  if s.fail then s else { s with pos := p }

/-- `k` consecutive `read`s of `n` bytes each. -/
def isReadN (s : IStream) (n : Nat) : Nat → IStream
  | 0 => s
  | k + 1 => isReadN (isRead s n) n k

/-- Modelled from the spec: `CiTrace::CTHeader` (from the absent
`citrace.h`) — magic word and version are handled separately, and the
fields below are the ones `main.cpp` reads.  `headerBytes`/`elemBytes`
(the `sizeof`s of the fixed-size header and stream records) are kept as
parameters of the model since `citrace.h` is not available. -/
structure CTHeader where
  stream_offset : Nat
  stream_size : Nat
  initial_state_offsets : CTInitialStateOffsets
deriving Repr

/-- The stream reads performed by the default-attribute loop: each of the
`count` iterations seeks back to `off` and reads 16 bytes. -/
def attrLoopStream (off : Nat) : Nat → IStream → IStream
  | 0, s => s
  | k + 1, s => attrLoopStream off k (isRead (isSeek s off) 16)

/-- The stream reads performed by one `SubmitInternalMemory` call: nothing
for a zero word count; otherwise a seek to `file_offset` followed by
`num_words / 4 - 1` reads of 16 bytes (float branch: one `values[4]` read
per loop iteration) or `num_words` reads of 4 bytes (non-float branch: the
first word plus the `num_words - 1` loop reads). -/
def submitStream (file_offset num_words : Nat) (is_float_uniform : Bool)
    (s : IStream) : IStream :=
  if num_words = 0 then s
  else if is_float_uniform then isReadN (isSeek s file_offset) 16 (num_words / 4 - 1)
  else isReadN (isSeek s file_offset) 4 num_words

/-- All stream operations of the initial-state builder, in source order. -/
def buildStream (h : CTInitialStateOffsets) (s : IStream) : IStream :=
  isReadN
    (isSeek
      (submitStream h.vs_float_uniforms h.vs_float_uniforms_size true
        (submitStream h.vs_swizzle_data h.vs_swizzle_data_size false
          (submitStream h.vs_program_binary h.vs_program_binary_size false
            (submitStream h.gs_float_uniforms h.gs_float_uniforms_size true
              (submitStream h.gs_swizzle_data h.gs_swizzle_data_size false
                (submitStream h.gs_program_binary h.gs_program_binary_size false
                  (attrLoopStream h.default_attributes (h.default_attributes_size / 4) s)))))))
      h.pica_registers)
    4 (min 0x300 h.pica_registers_size)

/-- Length of the pre-padding command list; it depends only on the header
fields (proved below as `buildInitialCommands_length_oracle_free`). -/
def initialCommandCount (h : CTInitialStateOffsets) : Nat :=
  (buildInitialCommands (fun _ => 0) h).length

/-- Outcome of everything `main` does before the playback loop. -/
inductive SetupOutcome where
  /-- `!input` after `std::ifstream` construction: print + `return 1`. -/
  | openFailed : SetupOutcome
  /-- `!input` after reading the header: print + `return 1`. -/
  | headerReadFailed : SetupOutcome
  /-- `memcmp` of the magic word differs: print + `return 1`. -/
  | badMagic : SetupOutcome
  /-- the padding `while` loop at line 374 never exits (odd pre-padding
  length), so playback is never reached. -/
  | buildDiverges (s : IStream) : SetupOutcome
  /-- setup ran to completion and the playback loop starts; `s` is the
  stream state at that point. -/
  | started (s : IStream) : SetupOutcome
deriving Repr, DecidableEq

/-- `true` exactly on the outcomes where `main` prints a message and
returns 1 before playback. -/
def setupFatal : SetupOutcome → Bool
  | .openFailed => true
  | .headerReadFailed => true
  | .badMagic => true
  | _ => false

/-- The straight-line setup portion of `main` (lines 263-381), over the
size-only stream model.  `openOk` models whether `std::ifstream` opened,
`magicOk` whether the magic bytes equal "CiTr"; a version mismatch only
prints a warning, so it does not appear.  After the magic check no
statement before the playback loop branches to an exit: the stream records
and all builder inputs are read without any `!input` check.  The
`buildDiverges` case uses the parity characterisation of the padding loop
proved below (`padFuel_of_odd`, `padFuel_even_length`). -/
def runSetup (openOk magicOk : Bool) (headerBytes elemBytes : Nat)
    (hdr : CTHeader) (fileSize : Nat) : SetupOutcome :=
  if !openOk then .openFailed
  else
    let s1 := isRead ⟨fileSize, 0, false⟩ headerBytes
    if s1.fail then .headerReadFailed
    else if !magicOk then .badMagic
    else
      let s2 := isReadN (isSeek s1 hdr.stream_offset) elemBytes hdr.stream_size
      let s3 := buildStream hdr.initial_state_offsets s2
      if initialCommandCount hdr.initial_state_offsets % 2 = 1 then .buildDiverges s3
      else .started s3

/-- A header side-table with every offset and size field zero. -/
def zeroOffsets : CTInitialStateOffsets :=
  ⟨0, 0, 0, 0, 0, 0, 0, 0, 0, 0, 0, 0, 0, 0, 0, 0, 0, 0⟩

/-- A header side-table whose only non-zero field is a 4-word (one-slot)
default-attribute area: the pre-padding command list then has 5 words. -/
def attrOnlyOffsets : CTInitialStateOffsets :=
  { zeroOffsets with default_attributes := 64, default_attributes_size := 4 }

/-! ## Theorems -/

/-- Helper: the polling loop with `fuel` remaining continuations performs at
most `fuel + 1` further reads. -/
theorem pollAux_le (vals : Nat → Nat) :
    ∀ fuel idx, pollAux vals idx fuel ≤ idx + fuel + 1 := by
  intro fuel
  induction fuel with
  | zero => intro idx; simp [pollAux]
  | succ f ih =>
    intro idx
    simp only [pollAux]
    split
    · omega
    · have := ih (idx + 1)
      omega

/-- Helper: the polling loop stops with read number `k + 1` when read `k` is
the first whose low bit is set (and the bound still allows reaching it). -/
theorem pollAux_first_odd (vals : Nat → Nat) :
    ∀ fuel idx k, idx ≤ k → k ≤ idx + fuel →
      (∀ j, idx ≤ j → j < k → vals j &&& 1 = 0) → vals k &&& 1 ≠ 0 →
      pollAux vals idx fuel = k + 1 := by
  intro fuel
  induction fuel with
  | zero =>
    intro idx k h1 h2 _ _
    have : k = idx := by omega
    subst this
    rfl
  | succ f ih =>
    intro idx k h1 h2 hbefore hk
    simp only [pollAux]
    rcases Nat.eq_or_lt_of_le h1 with heq | hlt
    · subst heq
      rw [if_pos hk]
    · rw [if_neg (by simpa using hbefore idx (Nat.le_refl idx) hlt)]
      exact ih (idx + 1) k hlt (by omega) (fun j hj1 hj2 => hbefore j (by omega) hj2) hk

/-- C6: `translate(0) = 0`; every physical address inside a declared region
(video memory, main dynamic RAM, DSP memory, IO register window) translates
to the input plus that region's constant delta, the regions being tested in
the source's fixed order; and `0` is distinguishable from every address
returned for a non-zero input. -/
theorem translate_affine_per_region :
    PhysicalToVirtualAddress 0 = some 0 ∧
    (∀ p, VRAM_PADDR ≤ p → p < VRAM_PADDR_END →
      PhysicalToVirtualAddress p = some (p - VRAM_PADDR + VRAM_VADDR)) ∧
    (∀ p, FCRAM_PADDR ≤ p → p < FCRAM_PADDR_END →
      PhysicalToVirtualAddress p = some (p - FCRAM_PADDR + FCRAMStartVAddr)) ∧
    (∀ p, DSP_RAM_PADDR ≤ p → p < DSP_RAM_PADDR_END →
      PhysicalToVirtualAddress p = some (p - DSP_RAM_PADDR + DSP_RAM_VADDR)) ∧
    (∀ p, IO_AREA_PADDR ≤ p → p < IO_AREA_PADDR_END →
      PhysicalToVirtualAddress p = some (p - IO_AREA_PADDR + IO_AREA_VADDR)) ∧
    (∀ p v, p ≠ 0 → PhysicalToVirtualAddress p = some v → v ≠ 0) := by
  have hco : VRAM_PADDR = 0x18000000 ∧ VRAM_PADDR_END = 0x18600000 ∧
      FCRAM_PADDR = 0x20000000 ∧ FCRAM_PADDR_END = 0x28000000 ∧
      DSP_RAM_PADDR = 0x1FF00000 ∧ DSP_RAM_PADDR_END = 0x1FF80000 ∧
      IO_AREA_PADDR = 0x10100000 ∧ IO_AREA_PADDR_END = 0x11100000 ∧
      VRAM_VADDR = 0x1F000000 ∧ FCRAMStartVAddr = 0x14000000 ∧
      DSP_RAM_VADDR = 0x1FF00000 ∧ IO_AREA_VADDR = 0x1EC00000 :=
    ⟨rfl, rfl, rfl, rfl, rfl, rfl, rfl, rfl, rfl, rfl, rfl, rfl⟩
  obtain ⟨e1, e2, e3, e4, e5, e6, e7, e8, e9, e10, e11, e12⟩ := hco
  refine ⟨rfl, ?_, ?_, ?_, ?_, ?_⟩
  · intro p h1 h2
    unfold PhysicalToVirtualAddress
    rw [if_neg (show ¬p = 0 by rw [e1] at h1; omega),
      if_pos (show VRAM_PADDR ≤ p ∧ p < VRAM_PADDR_END from ⟨h1, h2⟩)]
  · intro p h1 h2
    unfold PhysicalToVirtualAddress
    rw [if_neg (show ¬p = 0 by rw [e3] at h1; omega),
      if_neg (show ¬(VRAM_PADDR ≤ p ∧ p < VRAM_PADDR_END) by
        rw [e1, e2]; rw [e3] at h1; rw [e4] at h2; omega),
      if_pos (show FCRAM_PADDR ≤ p ∧ p < FCRAM_PADDR_END from ⟨h1, h2⟩)]
  · intro p h1 h2
    unfold PhysicalToVirtualAddress
    rw [if_neg (show ¬p = 0 by rw [e5] at h1; omega),
      if_neg (show ¬(VRAM_PADDR ≤ p ∧ p < VRAM_PADDR_END) by
        rw [e1, e2]; rw [e5] at h1; rw [e6] at h2; omega),
      if_neg (show ¬(FCRAM_PADDR ≤ p ∧ p < FCRAM_PADDR_END) by
        rw [e3, e4]; rw [e5] at h1; rw [e6] at h2; omega),
      if_pos (show DSP_RAM_PADDR ≤ p ∧ p < DSP_RAM_PADDR_END from ⟨h1, h2⟩)]
  · intro p h1 h2
    unfold PhysicalToVirtualAddress
    rw [if_neg (show ¬p = 0 by rw [e7] at h1; omega),
      if_neg (show ¬(VRAM_PADDR ≤ p ∧ p < VRAM_PADDR_END) by
        rw [e1, e2]; rw [e7] at h1; rw [e8] at h2; omega),
      if_neg (show ¬(FCRAM_PADDR ≤ p ∧ p < FCRAM_PADDR_END) by
        rw [e3, e4]; rw [e7] at h1; rw [e8] at h2; omega),
      if_neg (show ¬(DSP_RAM_PADDR ≤ p ∧ p < DSP_RAM_PADDR_END) by
        rw [e5, e6]; rw [e7] at h1; rw [e8] at h2; omega),
      if_pos (show IO_AREA_PADDR ≤ p ∧ p < IO_AREA_PADDR_END from ⟨h1, h2⟩)]
  · intro p v hp hv
    unfold PhysicalToVirtualAddress at hv
    rw [if_neg hp] at hv
    by_cases gV : VRAM_PADDR ≤ p ∧ p < VRAM_PADDR_END
    · rw [if_pos gV] at hv
      have h := Option.some.inj hv
      rw [e1, e9] at h; rw [e1, e2] at gV; omega
    · rw [if_neg gV] at hv
      by_cases gF : FCRAM_PADDR ≤ p ∧ p < FCRAM_PADDR_END
      · rw [if_pos gF] at hv
        have h := Option.some.inj hv
        rw [e3, e10] at h; rw [e3, e4] at gF; omega
      · rw [if_neg gF] at hv
        by_cases gD : DSP_RAM_PADDR ≤ p ∧ p < DSP_RAM_PADDR_END
        · rw [if_pos gD] at hv
          have h := Option.some.inj hv
          rw [e5, e11] at h; rw [e5, e6] at gD; omega
        · rw [if_neg gD] at hv
          by_cases gI : IO_AREA_PADDR ≤ p ∧ p < IO_AREA_PADDR_END
          · rw [if_pos gI] at hv
            have h := Option.some.inj hv
            rw [e7, e12] at h; rw [e7, e8] at gI; omega
          · rw [if_neg gI] at hv
            exact Option.noConfusion hv

/-- Witness for `translate_affine_per_region` at a concrete VRAM address. -/
theorem translate_affine_per_region_witness :
    VRAM_PADDR ≤ 0x18000010 ∧ (0x18000010 : Nat) < VRAM_PADDR_END ∧
    PhysicalToVirtualAddress 0x18000010 = some 0x1F000010 :=
  ⟨by decide, by decide,
    (translate_affine_per_region.2.1 0x18000010 (by decide) (by decide)).trans (by decide)⟩

/-- C10: a `MemoryLoad` with physical address 0 takes the non-VRAM path,
translation yields the null sentinel, the element is skipped with a
diagnostic — no bytes copied, no cache range flushed — and the stream
iteration continues. -/
theorem memoryLoad_zero_is_skipped :
    ∀ file_offset size cmdListAddr,
      PhysicalToVirtualAddress 0 = some 0 ∧
      processMemoryLoad file_offset 0 size = .skipNullDest ∧
      loadBytesCopied (processMemoryLoad file_offset 0 size) = 0 ∧
      loadFlushedRanges (processMemoryLoad file_offset 0 size) = [] ∧
      stepElement cmdListAddr (.memoryLoad file_offset 0 size) = .next := by
  intro fo sz c
  have hload : processMemoryLoad fo 0 sz = .skipNullDest := by
    unfold processMemoryLoad VRAM_PADDR VRAM_PADDR_END VRAM_SIZE
    rw [if_neg (by omega)]
    rfl
  refine ⟨rfl, hload, ?_, ?_, ?_⟩
  · rw [hload]; rfl
  · rw [hload]; rfl
  · simp only [stepElement, hload]

/-- C1 counterexample: a `MemoryLoad` element whose physical address is
non-zero and in no declared region does not continue the stream — the
translator terminates the whole process. -/
theorem memoryLoad_unknown_address_terminates :
    stepElement 0 (.memoryLoad 0 1 16) = .procTerminated ∧
    ElemOutcome.procTerminated ≠ ElemOutcome.next := by
  exact ⟨by decide, by decide⟩

/-- C1 (amended): when translation fails for a non-zero physical address
(in none of the declared regions), the memory-load step terminates the
process; only the zero address — the null sentinel — is skipped with a
diagnostic while iteration continues. -/
theorem translate_failure_terminates_process :
    (∀ file_offset pa size cmdListAddr, pa ≠ 0 →
      ¬(VRAM_PADDR ≤ pa ∧ pa < VRAM_PADDR_END) →
      ¬(FCRAM_PADDR ≤ pa ∧ pa < FCRAM_PADDR_END) →
      ¬(DSP_RAM_PADDR ≤ pa ∧ pa < DSP_RAM_PADDR_END) →
      ¬(IO_AREA_PADDR ≤ pa ∧ pa < IO_AREA_PADDR_END) →
      PhysicalToVirtualAddress pa = none ∧
      stepElement cmdListAddr (.memoryLoad file_offset pa size) = .procTerminated) ∧
    (∀ file_offset size cmdListAddr,
      stepElement cmdListAddr (.memoryLoad file_offset 0 size) = .next) := by
  constructor
  · intro fo pa sz c hp h1 h2 h3 h4
    have htr : PhysicalToVirtualAddress pa = none := by
      unfold PhysicalToVirtualAddress
      rw [if_neg hp, if_neg h1, if_neg h2, if_neg h3, if_neg h4]
    have hload : processMemoryLoad fo pa sz = .terminated := by
      unfold processMemoryLoad
      rw [if_neg h1, htr]
    refine ⟨htr, ?_⟩
    simp only [stepElement, hload]
  · intro fo sz c
    have hload : processMemoryLoad fo 0 sz = .skipNullDest := by
      unfold processMemoryLoad VRAM_PADDR VRAM_PADDR_END VRAM_SIZE
      rw [if_neg (by omega)]
      rfl
    simp only [stepElement, hload]

/-- Witness for `translate_failure_terminates_process` at address 1. -/
theorem translate_failure_terminates_process_witness :
    PhysicalToVirtualAddress 1 = none ∧
    stepElement 7 (.memoryLoad 3 1 5) = .procTerminated :=
  translate_failure_terminates_process.1 3 1 5 7 (by decide) (by decide) (by decide)
    (by decide) (by decide)

set_option maxRecDepth 4000 in
/-- C5 counterexample: with the completion bit never observed set, the
polling loop reads the register back 101 times — the `do { } while
(count++ < 100)` guard admits 101 body executions, not 100. -/
theorem poll_reads_101_when_bit_never_set :
    pollReads (fun _ => 0) = 101 ∧ 100 < 101 := by
  exact ⟨by decide, by decide⟩

/-- C5 (amended): a register write to one of the four operation-triggering
addresses is followed by a poll of at most **101** read-backs (not 100),
which stops as soon as a read-back has its low bit set, after which
playback continues with the next element regardless of the polled value. -/
theorem trigger_poll_spec :
    ∀ pa, isTriggerAddress pa = true →
      (pa = 0x1040001C ∨ pa = 0x1040002C ∨ pa = 0x10400C18 ∨ pa = 0x104018F0) ∧
      (∀ vals, pollReads vals ≤ 101) ∧
      (∀ vals k, k ≤ 100 → (∀ j, j < k → vals j &&& 1 = 0) → vals k &&& 1 ≠ 0 →
        pollReads vals = k + 1) ∧
      (∀ cmdListAddr value size, pa ≠ 0x104018F0 →
        stepElement cmdListAddr (.registerWrite pa value size) = .next) := by
  intro pa h
  refine ⟨?_, ?_, ?_, ?_⟩
  · have h' := h
    simp only [isTriggerAddress, Bool.or_eq_true, decide_eq_true_eq] at h'
    tauto
  · intro vals
    have := pollAux_le vals 100 0
    unfold pollReads
    omega
  · intro vals k hk hbefore hodd
    exact pollAux_first_odd vals 100 0 k (Nat.zero_le k) (by omega)
      (fun j _ hj => hbefore j hj) hodd
  · intro c v s hne
    simp only [stepElement]
    rw [if_neg hne]

/-- Witness for `trigger_poll_spec` at the first fill-control register. -/
theorem trigger_poll_spec_witness :
    isTriggerAddress 0x1040001C = true ∧
    pollReads (fun _ => 1) = 1 ∧
    stepElement 0 (.registerWrite 0x1040001C 5 4) = .next := by
  refine ⟨by decide, ?_, ?_⟩
  · exact (trigger_poll_spec 0x1040001C (by decide)).2.2.1 (fun _ => 1) 0 (by decide)
      (fun j hj => absurd hj (Nat.not_lt_zero j)) (by decide)
  · exact (trigger_poll_spec 0x1040001C (by decide)).2.2.2 0 5 4 (by decide)

/-- Helper: the padding loop never terminates on an odd-length list — each
iteration appends two words, so the length stays odd and never becomes a
multiple of 4. -/
theorem padFuel_odd (l : List Nat) (h : l.length % 2 = 1) :
    ∀ fuel, padFuel fuel l = none := by
  intro fuel
  induction fuel generalizing l with
  | zero =>
    simp only [padFuel]
    rw [if_neg (by omega)]
  | succ f ih =>
    simp only [padFuel]
    rw [if_neg (by omega)]
    exact ih _ (by simp only [List.length_append, List.length_cons, List.length_nil]; omega)

/-- Helper: a list whose length is already a multiple of 4 is returned
unchanged at any fuel. -/
theorem padFuel_mod4 (l : List Nat) (h : l.length % 4 = 0) :
    ∀ fuel, padFuel fuel l = some l := by
  intro fuel
  cases fuel <;> simp [padFuel, h]

/-- Helper: on an even-length list the padding loop terminates (one
iteration at most) with a length that is a multiple of 4. -/
theorem padFuel_even (l : List Nat) (h : l.length % 2 = 0) :
    ∀ fuel, 1 ≤ fuel → ∃ r, padFuel fuel l = some r ∧ r.length % 4 = 0 := by
  intro fuel hf
  match fuel, hf with
  | f + 1, _ =>
    by_cases h4 : l.length % 4 = 0
    · exact ⟨l, by simp [padFuel, h4], h4⟩
    · have hlen : (l ++ [l.getD (l.length - 2) 0, l.getD (l.length - 1) 0]).length % 4 = 0 := by
        simp only [List.length_append, List.length_cons, List.length_nil]
        omega
      refine ⟨_, ?_, hlen⟩
      simp only [padFuel]
      rw [if_neg h4]
      exact padFuel_mod4 _ hlen f

/-- C2 (code bug): for the header whose only non-zero size field is a
4-word default-attribute area, the pre-padding command list has 5 words
(odd), and the padding loop — which appends two words per iteration while
the length is not a multiple of 4 — never terminates, contradicting the
in-source comment "Make sure size is a multiple of 16 bytes". -/
theorem padding_diverges_on_odd_initial_state :
    (buildInitialCommands (fun _ => 0) attrOnlyOffsets).length = 5 ∧
    ∀ fuel, padFuel fuel (buildInitialCommands (fun _ => 0) attrOnlyOffsets) = none := by
  have h5 : (buildInitialCommands (fun _ => 0) attrOnlyOffsets).length = 5 := by decide
  exact ⟨h5, fun fuel => padFuel_odd _ (by rw [h5]) fuel⟩

/-- C4 (code bug): the float-uniform branch of `SubmitInternalMemory`
iterates `num_words / 4 - 1` times (loop `for (index = 1; index <
num_words / 4; ...)`), not `num_words / 4` times.  At `num_words = 8` only
one group is packed: the list has 6 words — not the 9 the claim predicts
(2 prologue + 1 header + 3·(8/4) packed) — while the header word `0x5F0291`
itself still declares payload length `(8/4)*3 - 1 = 5`.  At `num_words = 4`
the loop body never runs and the data command header is never written at
all. -/
theorem submit_float_skips_one_group :
    SubmitInternalMemory (fun o => o) 0 8 0x290 true =
      [0, 0xF0290, 3072, 0x5F0291, 0x80000, 0x4000000] ∧
    (SubmitInternalMemory (fun o => o) 0 8 0x290 true).length = 6 ∧
    (0x5F0291 : Nat) >>> 20 = 5 ∧
    6 ≠ 3 + 3 * (8 / 4) ∧
    SubmitInternalMemory (fun o => o) 0 4 0x290 true = [0, 0xF0290] := by
  exact ⟨by decide, by decide, by decide, by decide, by decide⟩

/-- C3 counterexample: a trace whose file ends right after the header
(stream area of one 24-byte record entirely missing) is not detected: the
stream read fails silently (sticky fail bit) and setup still reaches
playback — no fatal truncation error exists. -/
theorem truncated_stream_reaches_playback :
    96 + 1 * 24 > 96 ∧
    runSetup true true 96 24 ⟨96, 1, zeroOffsets⟩ 96 = .started ⟨96, 96, true⟩ ∧
    setupFatal (runSetup true true 96 24 ⟨96, 1, zeroOffsets⟩ 96) = false := by
  exact ⟨by decide, by decide, by decide⟩

/-- C3 (amended): the only fatal setup outcomes are a failed file open, a
file shorter than the header, and a bad magic word; a file that ends during
the stream-record reads or during the initial-state construction reads
raises no error at all — the failed reads are silently ignored and
playback is still reached. -/
theorem setup_fatal_characterization :
    ∀ openOk magicOk headerBytes elemBytes hdr fileSize,
      setupFatal (runSetup openOk magicOk headerBytes elemBytes hdr fileSize) = true ↔
        (openOk = false ∨ fileSize < headerBytes ∨ magicOk = false) := by
  intro o m hb eb hdr fsz
  cases o with
  | false => simp [runSetup, setupFatal]
  | true =>
    by_cases hbf : 0 + hb ≤ fsz
    · have hread : isRead ⟨fsz, 0, false⟩ hb = ⟨fsz, 0 + hb, false⟩ := by
        unfold isRead
        rw [if_neg (by simp), if_pos hbf]
      cases m with
      | false =>
        simp [runSetup, hread, setupFatal]
      | true =>
        simp only [runSetup, hread, Bool.not_true, Bool.false_eq_true, if_false]
        split <;> simp [setupFatal] <;> omega
    · have hread : isRead ⟨fsz, 0, false⟩ hb = ⟨fsz, fsz, true⟩ := by
        unfold isRead
        rw [if_neg (by simp), if_neg hbf]
      cases m with
      | false =>
        simp [runSetup, hread, setupFatal]
      | true =>
        simp [runSetup, hread, setupFatal]
        omega

/-- Helper: a physical address inside VRAM translates to itself plus the
VRAM delta. -/
theorem translate_vram (p : Nat) (h1 : VRAM_PADDR ≤ p) (h2 : p < VRAM_PADDR_END) :
    PhysicalToVirtualAddress p = some (p - VRAM_PADDR + VRAM_VADDR) := by
  have e : VRAM_PADDR = 0x18000000 := rfl
  unfold PhysicalToVirtualAddress
  rw [if_neg (show ¬p = 0 by rw [e] at h1; omega),
    if_pos (⟨h1, h2⟩ : VRAM_PADDR ≤ p ∧ p < VRAM_PADDR_END)]

/-- Helper: the DMA loop dies immediately when the chunk address does not
translate. -/
theorem dmaTransfers_translate_none (pos addr remaining : Nat)
    (h : PhysicalToVirtualAddress addr = none) :
    dmaTransfers pos addr remaining = ([], some addr) := by
  rw [dmaTransfers, h]

/-- Helper: one-step unfolding of the DMA loop when the chunk address
translates. -/
theorem dmaTransfers_translate_some (pos addr remaining v : Nat)
    (h : PhysicalToVirtualAddress addr = some v) :
    dmaTransfers pos addr remaining =
      if remaining ≤ 1024 then ([(pos, addr, min 1024 remaining)], none)
      else ((pos, addr, min 1024 remaining) ::
        (dmaTransfers (pos + min 1024 remaining) (u32 (addr + 1024)) (remaining - 1024)).1,
        (dmaTransfers (pos + min 1024 remaining) (u32 (addr + 1024)) (remaining - 1024)).2) := by
  rw [dmaTransfers, h]

/-- Helper: when the whole byte range stays inside VRAM every chunk address
translates, so the loop completes; the chunk sizes sum to the requested
size, the chunk count is `⌈remaining / 1024⌉` (at least 1), and chunk `i`
reads the file at `pos + 1024·i` toward `addr + 1024·i` with size
`min 1024 (remaining - 1024·i)`. -/
theorem dmaTransfers_in_vram (pos addr remaining : Nat)
    (h1 : VRAM_PADDR ≤ addr) (hlt : addr < VRAM_PADDR_END)
    (hend : addr + remaining ≤ VRAM_PADDR_END) :
    (dmaTransfers pos addr remaining).2 = none ∧
    ((dmaTransfers pos addr remaining).1.map (fun c => c.2.2)).sum = remaining ∧
    (dmaTransfers pos addr remaining).1.length =
      (if remaining ≤ 1024 then 1 else (remaining + 1023) / 1024) ∧
    ∀ i, i < (dmaTransfers pos addr remaining).1.length →
      (dmaTransfers pos addr remaining).1.getD i (0, 0, 0) =
        (pos + 1024 * i, addr + 1024 * i, min 1024 (remaining - 1024 * i)) := by
  induction remaining using Nat.strong_induction_on generalizing pos addr with
  | _ n ih =>
    rw [dmaTransfers_translate_some pos addr n _ (translate_vram addr h1 hlt)]
    by_cases h : n ≤ 1024
    · rw [if_pos h, if_pos h]
      refine ⟨rfl, ?_, rfl, ?_⟩
      · simp
        omega
      · intro i hi
        simp only [List.length_cons, List.length_nil] at hi
        have hi0 : i = 0 := by omega
        subst hi0
        simp only [List.getD_cons_zero]
        rw [Nat.mul_zero, Nat.add_zero, Nat.add_zero, Nat.sub_zero]
    · rw [if_neg h, if_neg h]
      have eEnd : VRAM_PADDR_END = 0x18600000 := rfl
      have hu : u32 (addr + 1024) = addr + 1024 := by
        unfold u32
        rw [eEnd] at hend
        omega
      obtain ⟨ih1, ih2, ih3, ih4⟩ := ih (n - 1024) (by omega) (pos + min 1024 n)
        (u32 (addr + 1024)) (by rw [hu]; omega) (by rw [hu]; omega) (by rw [hu]; omega)
      have hmin : min 1024 n = 1024 := by omega
      refine ⟨ih1, ?_, ?_, ?_⟩
      · simp only [List.map_cons, List.sum_cons, ih2]
        omega
      · simp only [List.length_cons, ih3]
        split <;> omega
      · intro i hi
        simp only [List.length_cons] at hi
        cases i with
        | zero =>
          simp only [List.getD_cons_zero]
          rw [Nat.mul_zero, Nat.add_zero, Nat.add_zero, Nat.sub_zero]
        | succ i =>
          simp only [List.getD_cons_succ]
          rw [ih4 i (by omega), hu]
          refine congrArg₂ Prod.mk ?_ (congrArg₂ Prod.mk ?_ ?_)
          · rw [hmin]
            omega
          · omega
          · omega

/-- Helper: the `MemoryLoad` case of the stream-element dispatch, as a
definitional equation. -/
theorem stepElement_memoryLoad (cmdListAddr file_offset pa size : Nat) :
    stepElement cmdListAddr (.memoryLoad file_offset pa size) =
      match processMemoryLoad file_offset pa size with
      | .terminated => .procTerminated
      | .dmaAborted _ _ => .procTerminated
      | _ => .next := rfl

/-- C8 counterexample: a VRAM load whose byte range crosses the end of
VRAM is not completed — each chunk's address is translated (the diagnostic
print and the `GX_RequestDma` call), and at `pa = 0x185FFC00, size = 2048`
the second chunk address `0x18600000` lies in no declared region, so the
process terminates mid-copy after a single 1024-byte chunk: the delivered
chunk sizes do not sum to the requested size. -/
theorem vram_dma_crossing_end_terminates :
    VRAM_PADDR ≤ 0x185FFC00 ∧ (0x185FFC00 : Nat) < VRAM_PADDR_END ∧
    dmaTransfers 0 0x185FFC00 2048 = ([(0, 0x185FFC00, 1024)], some 0x18600000) ∧
    processMemoryLoad 0 0x185FFC00 2048 =
      .dmaAborted [(0, 0x185FFC00, 1024)] 0x18600000 ∧
    loadBytesCopied (processMemoryLoad 0 0x185FFC00 2048) = 1024 ∧
    (1024 : Nat) ≠ 2048 ∧
    stepElement 0 (.memoryLoad 0 0x185FFC00 2048) = .procTerminated := by
  have t1 : PhysicalToVirtualAddress 0x185FFC00 = some 0x1F5FFC00 := by decide
  have t2 : PhysicalToVirtualAddress 0x18600000 = none := by decide
  have hu : u32 (0x185FFC00 + 1024) = 0x18600000 := by decide
  have e1 : dmaTransfers 1024 0x18600000 1024 = ([], some 0x18600000) :=
    dmaTransfers_translate_none 1024 0x18600000 1024 t2
  have e0 : dmaTransfers 0 0x185FFC00 2048 = ([(0, 0x185FFC00, 1024)], some 0x18600000) := by
    rw [dmaTransfers_translate_some 0 0x185FFC00 2048 0x1F5FFC00 t1,
      if_neg (by norm_num)]
    norm_num [hu, e1]
  have hp : processMemoryLoad 0 0x185FFC00 2048 =
      .dmaAborted [(0, 0x185FFC00, 1024)] 0x18600000 := by
    unfold processMemoryLoad
    rw [if_pos (by decide), e0]
  refine ⟨by decide, by decide, e0, hp, ?_, by decide, ?_⟩
  · rw [hp]
    rfl
  · rw [stepElement_memoryLoad, hp]

/-- C8 (amended): a `MemoryLoad` whose destination lies in the video-memory
region and whose byte range stays inside it is performed as DMA chunks of
exactly 1024 bytes plus a final remainder chunk: the loop completes, the
chunk sizes sum exactly to the requested size, and successive chunks
advance both the source file offset and the destination address by 1024.
(When the range crosses the end of VRAM, the per-chunk address translation
terminates the process mid-copy instead — see the counterexample.) -/
theorem memoryLoad_vram_dma_chunking (file_offset pa size : Nat)
    (h1 : VRAM_PADDR ≤ pa) (h2 : pa < VRAM_PADDR_END)
    (hend : pa + size ≤ VRAM_PADDR_END) :
    processMemoryLoad file_offset pa size =
      .dmaCopy (dmaTransfers file_offset pa size).1 ∧
    ((dmaTransfers file_offset pa size).1.map (fun c => c.2.2)).sum = size ∧
    (dmaTransfers file_offset pa size).1.length =
      (if size ≤ 1024 then 1 else (size + 1023) / 1024) ∧
    (∀ i, i < (dmaTransfers file_offset pa size).1.length →
      (dmaTransfers file_offset pa size).1.getD i (0, 0, 0) =
        (file_offset + 1024 * i, pa + 1024 * i, min 1024 (size - 1024 * i))) ∧
    (∀ i, i + 1 < (dmaTransfers file_offset pa size).1.length →
      ((dmaTransfers file_offset pa size).1.getD i (0, 0, 0)).2.2 = 1024) ∧
    (1024 < size → size % 1024 ≠ 0 →
      ((dmaTransfers file_offset pa size).1.getD
        ((dmaTransfers file_offset pa size).1.length - 1) (0, 0, 0)).2.2 = size % 1024) ∧
    (size ≤ 1024 → (dmaTransfers file_offset pa size).1 = [(file_offset, pa, size)]) := by
  obtain ⟨hsnd, hsum, hlen, hget⟩ := dmaTransfers_in_vram file_offset pa size h1 h2 hend
  refine ⟨?_, hsum, hlen, hget, ?_, ?_, ?_⟩
  · unfold processMemoryLoad
    rw [if_pos ⟨h1, h2⟩]
    rcases hdt : dmaTransfers file_offset pa size with ⟨chunks, osnd⟩
    rw [hdt] at hsnd
    obtain rfl : osnd = none := hsnd
    rfl
  · intro i hi
    rw [hget i (by omega)]
    rw [hlen] at hi
    simp only [Prod.snd]
    split at hi <;> omega
  · intro hs hm
    have hlen1 : (dmaTransfers file_offset pa size).1.length = (size + 1023) / 1024 := by
      rw [hlen, if_neg (by omega)]
    rw [hlen1, hget ((size + 1023) / 1024 - 1) (by rw [hlen1]; omega)]
    simp only [Prod.snd]
    omega
  · intro hs
    rw [dmaTransfers_translate_some file_offset pa size _ (translate_vram pa h1 h2),
      if_pos hs, Nat.min_eq_right hs]

/-- Witness for `memoryLoad_vram_dma_chunking` at size 1500 (range inside
VRAM): chunks 1024 then 476. -/
theorem memoryLoad_vram_dma_chunking_witness :
    VRAM_PADDR ≤ 0x18000000 ∧ (0x18000000 : Nat) < VRAM_PADDR_END ∧
    (0x18000000 : Nat) + 1500 ≤ VRAM_PADDR_END ∧
    ((dmaTransfers 0 0x18000000 1500).1.map (fun c => c.2.2)).sum = 1500 :=
  ⟨by decide, by decide, by decide, (memoryLoad_vram_dma_chunking 0 0x18000000 1500
    (by decide) (by decide) (by decide)).2.1⟩

/-- Helper: each default-attribute slot contributes exactly 5 words. -/
theorem defaultAttrSlot_length (w : Nat → Nat) (off i : Nat) :
    (defaultAttrSlot w off i).length = 5 := rfl

/-- Helper: dropping `5·i` words from a flatMap of 5-word blocks over
`range' s cnt` lands exactly at block `s + i`. -/
theorem flatMap_blocks_drop (g : Nat → List Nat) (hg : ∀ j, (g j).length = 5) :
    ∀ i cnt s, i < cnt →
      ((List.range' s cnt).flatMap g).drop (5 * i) =
        g (s + i) ++ (List.range' (s + i + 1) (cnt - i - 1)).flatMap g := by
  intro i
  induction i with
  | zero =>
    intro cnt s hi
    match cnt, hi with
    | c + 1, _ =>
      rw [List.range'_succ, List.flatMap_cons]
      simp
  | succ i ih =>
    intro cnt s hi
    match cnt, hi with
    | c + 1, _ =>
      rw [List.range'_succ, List.flatMap_cons]
      have h5 : 5 * (i + 1) = 5 + 5 * i := by ring
      rw [h5, ← List.drop_drop, show (5 : Nat) = (g s).length from (hg s).symm,
        List.drop_left, hg s]
      rw [ih c (s + 1) (by omega)]
      have e1 : s + 1 + i = s + (i + 1) := by ring
      have e2 : c - i - 1 = c + 1 - (i + 1) - 1 := by omega
      rw [e1, e2]

/-- Helper: total length of the default-attribute commands. -/
theorem defaultAttrCommands_length (w : Nat → Nat) (off n : Nat) :
    (defaultAttrCommands w off n).length = 5 * n := by
  induction n with
  | zero => rfl
  | succ m ih =>
    unfold defaultAttrCommands at ih ⊢
    rw [List.range_succ, List.flatMap_append, List.length_append, ih]
    simp only [List.flatMap_cons, List.flatMap_nil, List.append_nil,
      defaultAttrSlot_length]
    ring

/-- C9: the file position is re-seeked to the default-attributes offset
before every slot's 4-word read, so every slot is packed from the same
first 4 source words of that area; each slot appends exactly 5 words
(index, command header, 3 packed words), so the step can leave the command
list at an odd length. -/
theorem default_attribute_slots_identical (w : Nat → Nat) (off n i : Nat) (h : i < n) :
    (defaultAttrCommands w off n).length = 5 * n ∧
    ((defaultAttrCommands w off n).drop (5 * i)).take 5 =
      [i, 0x232 ||| 0xF0000 ||| (3 <<< 20),
       (pack (readWord w off) (readWord w (off + 4)) (readWord w (off + 8))
         (readWord w (off + 12))).1,
       (pack (readWord w off) (readWord w (off + 4)) (readWord w (off + 8))
         (readWord w (off + 12))).2.1,
       (pack (readWord w off) (readWord w (off + 4)) (readWord w (off + 8))
         (readWord w (off + 12))).2.2] ∧
    (defaultAttrCommands w off 1).length % 2 = 1 := by
  refine ⟨defaultAttrCommands_length w off n, ?_, by rw [defaultAttrCommands_length]⟩
  unfold defaultAttrCommands
  rw [List.range_eq_range']
  rw [flatMap_blocks_drop (defaultAttrSlot w off) (defaultAttrSlot_length w off) i n
    0 h]
  rw [show (5 : Nat) = (defaultAttrSlot w off (0 + i)).length from
    (defaultAttrSlot_length w off (0 + i)).symm, List.take_left]
  rw [Nat.zero_add]
  rfl

/-- Witness for `default_attribute_slots_identical`: with a 2-slot area
both slots carry the same packed words. -/
theorem default_attribute_slots_identical_witness :
    ((defaultAttrCommands (fun o => o) 20 2).drop 5).take 5 =
      [1, 0x3F0232, 8192, 0x1C0000, 0x18000014] := by
  have h := (default_attribute_slots_identical (fun o => o) 20 2 1 (by decide)).2.1
  rw [h]
  decide

/-- C7 counterexample: the packing keeps the LOW 24 bits of each sample and
discards the HIGH 8 bits (`values[3] << 8` shifts the top byte out of the
32-bit word; the other lanes are taken through `& 0xFFFFFF`-style masks).
Two inputs differing only in the top 8 bits of `v3` pack identically, so no
unpacking transform can reproduce the original top 24 bits; the v3 lane of
the unpacking yields 0 though `0x01000000 >> 8 = 0x010000 ≠ 0`. -/
theorem pack_collision_in_top_bits :
    pack 0 0 0 0x01000000 = pack 0 0 0 0 ∧
    (0x01000000 : Nat) >>> 8 ≠ (0 : Nat) >>> 8 ∧
    (unpackSpec (pack 0 0 0 0x01000000).1 (pack 0 0 0 0x01000000).2.1
      (pack 0 0 0 0x01000000).2.2).2.2.2 = 0 := by
  exact ⟨by decide, by decide, by decide⟩

/-- C7 (amended): for every 4-tuple of 32-bit source values the emitted
packed words are exactly the three formulas of the claim, and applying the
unpacking transform to the 3 produced words reproduces the original **low**
24 bits of each of `v0..v3` (the **high** 8 bits of each sample are
discarded). -/
theorem pack_unpack_roundtrip_low24 (v0 v1 v2 v3 : Nat)
    (_h0 : v0 < 4294967296) (_h1 : v1 < 4294967296)
    (_h2 : v2 < 4294967296) (_h3 : v3 < 4294967296) :
    unpackSpec (pack v0 v1 v2 v3).1 (pack v0 v1 v2 v3).2.1 (pack v0 v1 v2 v3).2.2 =
      (v0 % 16777216, v1 % 16777216, v2 % 16777216, v3 % 16777216) := by
  have m8 : (0xFF : Nat) = 2 ^ 8 - 1 := by norm_num
  have m16 : (0xFFFF : Nat) = 2 ^ 16 - 1 := by norm_num
  have m24 : (0xFFFFFF : Nat) = 2 ^ 24 - 1 := by norm_num
  have m32 : (4294967296 : Nat) = 2 ^ 32 := by norm_num
  have m24n : (16777216 : Nat) = 2 ^ 24 := by norm_num
  simp only [unpackSpec, pack, u32, m8, m16, m24, m32, m24n,
    Nat.and_pow_two_sub_one_eq_mod, Prod.mk.injEq]
  refine ⟨?_, ?_, ?_, ?_⟩
  · -- v0 lane: (((v1 % 2^8) <<< 24 ||| v0 % 2^24)) % 2^24 = v0 % 2^24
    apply Nat.eq_of_testBit_eq
    intro j
    simp only [Nat.testBit_mod_two_pow, Nat.testBit_lor, Nat.testBit_shiftLeft]
    by_cases hj : j < 24
    · simp [hj, show ¬(j ≥ 24) by omega]
    · simp [hj]
  · -- v1 lane
    apply Nat.eq_of_testBit_eq
    intro j
    simp only [Nat.testBit_shiftRight, Nat.testBit_lor, Nat.testBit_mod_two_pow,
      Nat.testBit_shiftLeft]
    rcases Nat.lt_or_ge j 8 with hj8 | hj8
    · simp [show 24 + j - 24 = j by omega, show ¬(24 + j < 24) by omega,
        show ¬(j ≥ 8) by omega, show j < 24 by omega, hj8]
    · rcases Nat.lt_or_ge j 24 with hj24 | hj24
      · simp only [show ¬(j < 8) from by omega, decide_False, Bool.false_and,
          Bool.or_false, Bool.false_or, show (j ≥ 8) from by omega, decide_True,
          Bool.true_and, show 24 + j - 24 = j from by omega,
          show j - 8 < 16 from by omega, show (j - 8 ≥ 16) = False from by simp; omega,
          show j < 24 from by omega, show 8 + (j - 8) = j from by omega]
        simp
      · simp only [show ¬(j < 8) from by omega, decide_False, Bool.false_and,
          Bool.or_false, Bool.false_or, show (j ≥ 8) from by omega, decide_True,
          Bool.true_and, show 24 + j - 24 = j from by omega,
          show ¬(j - 8 < 16) from by omega, show ¬(j < 24) from by omega]
        simp
  · -- v2 lane
    apply Nat.eq_of_testBit_eq
    intro j
    simp only [Nat.testBit_shiftRight, Nat.testBit_lor, Nat.testBit_mod_two_pow,
      Nat.testBit_shiftLeft]
    rcases Nat.lt_or_ge j 16 with hj16 | hj16
    · simp [show 16 + j - 16 = j by omega, show (16 + j ≥ 16) by omega,
        show ¬(16 + j < 16) by omega, show ¬(j ≥ 16) by omega, hj16,
        show j < 24 by omega]
    · rcases Nat.lt_or_ge j 24 with hj24 | hj24
      · simp only [show ¬(j < 16) from by omega, decide_False, Bool.false_and,
          Bool.or_false, Bool.false_or, show (16 + j ≥ 16) from by omega, decide_True,
          Bool.true_and, show 16 + j - 16 = j from by omega,
          show (j ≥ 16) from by omega, show j - 16 < 8 from by omega,
          show ¬(j - 16 ≥ 8) from by omega, show 16 + (j - 16) = j from by omega,
          show j < 24 from by omega]
        simp
      · simp only [show ¬(j < 16) from by omega, decide_False, Bool.false_and,
          Bool.or_false, Bool.false_or, show (16 + j ≥ 16) from by omega, decide_True,
          Bool.true_and, show 16 + j - 16 = j from by omega,
          show ¬(j - 16 < 8) from by omega, show ¬(j < 24) from by omega]
        simp
  · -- v3 lane
    apply Nat.eq_of_testBit_eq
    intro j
    simp only [Nat.testBit_shiftRight, Nat.testBit_lor, Nat.testBit_mod_two_pow,
      Nat.testBit_shiftLeft]
    by_cases hj : j < 24
    · simp [show ¬(8 + j < 8) by omega, show (8 + j ≥ 8) by omega,
        show 8 + j - 8 = j by omega, show 8 + j < 32 by omega, hj]
    · simp [show ¬(8 + j < 8) by omega, show (8 + j ≥ 8) by omega,
        show 8 + j - 8 = j by omega, show ¬(8 + j < 32) by omega, hj]

/-- Witness for `pack_unpack_roundtrip_low24` on concrete 32-bit samples. -/
theorem pack_unpack_roundtrip_low24_witness :
    unpackSpec (pack 0x11111111 0x22222222 0x33333333 0x44444444).1
      (pack 0x11111111 0x22222222 0x33333333 0x44444444).2.1
      (pack 0x11111111 0x22222222 0x33333333 0x44444444).2.2 =
      (0x111111, 0x222222, 0x333333, 0x444444) := by
  have h := pack_unpack_roundtrip_low24 0x11111111 0x22222222 0x33333333 0x44444444
    (by decide) (by decide) (by decide) (by decide)
  rw [h]

/-- Helper: the non-float tail reads contribute one word each. -/
theorem rawTail_length (w : Nat → Nat) : ∀ k pos, (rawTail w k pos).length = k := by
  intro k
  induction k with
  | zero => intro pos; rfl
  | succ m ih => intro pos; simp only [rawTail, List.length_cons, ih]

/-- Helper: the float loop contributes 3 words per iteration plus one
header word on its first iteration when none was written yet. -/
theorem floatLoop_length (w : Nat → Nat) (hdrWord : Nat) :
    ∀ k pos b, (floatLoop w hdrWord k pos b).length =
      3 * k + (if k = 0 then 0 else if b then 0 else 1) := by
  intro k
  induction k with
  | zero => intro pos b; simp [floatLoop]
  | succ m ih =>
    intro pos b
    simp only [floatLoop, List.length_append, ih]
    cases b <;> simp <;> omega

/-- Helper: word count appended by one `SubmitInternalMemory` call; it
depends only on the header fields, not on the file contents. -/
theorem SubmitInternalMemory_length (w : Nat → Nat) (fo n rid : Nat) (b : Bool) :
    (SubmitInternalMemory w fo n rid b).length =
      if n = 0 then 0 else
      if b then (if n / 4 ≤ 1 then 2 else 3 * (n / 4)) else n + 3 := by
  by_cases hn : n = 0
  · simp [SubmitInternalMemory, hn]
  · cases b
    · simp only [SubmitInternalMemory, if_neg hn, Bool.false_eq_true, if_false,
        List.length_append, List.length_cons, rawTail_length]
      simp
      omega
    · simp only [SubmitInternalMemory, if_neg hn, if_true, List.length_append,
        floatLoop_length, List.length_cons, List.length_nil]
      by_cases h4 : n / 4 ≤ 1
      · rw [if_pos h4]
        have h1 : n / 4 - 1 = 0 := by omega
        simp [h1]
      · rw [if_neg h4]
        have h1 : ¬(n / 4 - 1 = 0) := by omega
        simp only [h1, if_false, if_neg]
        simp
        omega

/-- Helper: word count of the register-snapshot replay: two words for every
index whose mask entry is non-zero, independent of the file contents. -/
theorem picaRegCommands_length (w : Nat → Nat) (off : Nat) :
    ∀ count, (picaRegCommands w off count).length =
      2 * (List.range count).countP (fun r => decide (pica_register_state_mask r ≠ 0)) := by
  intro count
  induction count with
  | zero => rfl
  | succ m ih =>
    unfold picaRegCommands at ih ⊢
    rw [List.range_succ, List.flatMap_append, List.length_append, ih,
      List.countP_append]
    by_cases hm : pica_register_state_mask m = 0 <;>
      simp [List.countP_cons, hm, Nat.mul_add]

/-- The pre-padding command-list length depends only on the header fields,
never on the file contents: `initialCommandCount` is well defined. -/
theorem buildInitialCommands_length_oracle_free (w v : Nat → Nat)
    (h : CTInitialStateOffsets) :
    (buildInitialCommands w h).length = (buildInitialCommands v h).length := by
  simp only [buildInitialCommands, List.length_append, defaultAttrCommands_length,
    SubmitInternalMemory_length, picaRegCommands_length]

end CiTracePlayer
